import Mathlib

/-!
Shallow embedding of the core of `src/main.py` (Live Important News App):
the bounded deduplicator `BoundedDedup`, the text-normalisation and
matching helpers, the HuggingFace remote-classification wrapper
`hf_classify`, and one item / one cycle of the `update_news` polling loop.

Modelling conventions:
* Python strings become Lean `String`; `str.strip()` is `pyStrip`
  (drop whitespace at both ends) and `str.lower()` maps `Char.toLower`
  over the characters (ASCII case folding; the Devanagari aliases have no
  case, so nothing in the claims depends on the difference).
* Python's substring test `a in t` is `strContainsSub t a`.
* A Python `set` of strings is a duplicate-free `List String` (`sset`);
  iteration order of the corrective loop in `BoundedDedup.seen` is fixed
  to list order, which is immaterial for states reachable from an empty
  deduplicator since at most one element can ever be out of sync.
* `collections.deque(maxlen=capacity)` append semantics are
  `dequeAppend`: when full it drops the leftmost (oldest) element, and a
  deque with `maxlen=0` stays empty.
* Machine floats (scores, thresholds) become `ℚ`; exceptions become an
  explicit `PyResult`; network I/O becomes an oracle argument.
-/

/-- Whitespace strip on a character list: Python `str.strip()`. -/
def stripChars (l : List Char) : List Char :=
  ((l.dropWhile Char.isWhitespace).reverse.dropWhile Char.isWhitespace).reverse

/-- Python `key.strip()` on a `String`. -/
def pyStrip (s : String) : String :=
  ⟨stripChars s.data⟩

/-- Check that `needle` is an initial segment of `hay`. -/
def charsStartWith : List Char → List Char → Bool
  | [], _ => true
  | _ :: _, [] => false
  | a :: as, b :: bs => a == b && charsStartWith as bs

/-- Check that `needle` occurs contiguously inside `hay`
(Python `needle in hay` on strings, over character lists). -/
def charsContainSub (needle : List Char) : List Char → Bool
  | [] => needle.isEmpty
  | c :: rest => charsStartWith needle (c :: rest) || charsContainSub needle rest

/-- Python substring test `needle in hay` for `String`s. -/
def strContainsSub (hay needle : String) : Bool :=
  charsContainSub needle.data hay.data

/-- Source `normalize_text`: `(s or "").strip().lower()` (a `None`
argument never reaches the classifier in the modelled paths, so the
argument is a plain `String`). -/
def normalize_text (s : String) : String :=
  ⟨(stripChars s.data).map Char.toLower⟩

/-- Source `CITY_SYNONYMS` table. -/
def CITY_SYNONYMS : List (String × List String) :=
  [("delhi", ["delhi", "new delhi", "ndl", "ncr", "दिल्ली", "नई दिल्ली", "dilli"]),
   ("mumbai", ["mumbai", "bombay", "मुंबई"]),
   ("bengaluru", ["bengaluru", "bangalore", "बेंगलुरु"])]

/-- Source `IMPORTANT_KEYWORDS` list. -/
def IMPORTANT_KEYWORDS : List String :=
  ["earthquake", "war", "atomic", "nuclear", "blast", "explosion",
   "terrorist", "attack", "murder", "kill", "homicide", "riot", "violence",
   "fire", "flood", "storm", "hurricane", "tornado", "landslide", "accident",
   "robbery", "theft", "cyber attack", "bomb", "hostage", "shooting",
   "curfew", "evacuation", "collapse", "outbreak", "disease", "pandemic"]

/-- Source `city_aliases`: synonym-table lookup of the normalised city,
defaulting to the singleton of the normalised city itself. -/
def city_aliases (city : String) : List String :=
  let c := normalize_text city
  match CITY_SYNONYMS.lookup c with
  | some l => l
  | none => [c]

/-- Source `title_matches_city`: some alias occurs in the normalised title. -/
def title_matches_city (title city : String) : Bool :=
  let t := normalize_text title
  (city_aliases city).any (fun a => strContainsSub t a)

/-- Source `keyword_prefilter`: some keyword occurs in the normalised title. -/
def keyword_prefilter (title : String) (keywords : List String) : Bool :=
  let t := normalize_text title
  keywords.any (fun k => strContainsSub t k)

/-! ## BoundedDedup -/

/-- State of the source class `BoundedDedup`: capacity, the
`deque(maxlen=capacity)` (oldest first), and the membership `set`
modelled as a duplicate-free list. -/
structure BoundedDedup where
  capacity : ℕ
  queue : List String
  sset : List String
  deriving Repr, DecidableEq

/-- Source `BoundedDedup.__init__`: empty queue and set. -/
def initDedup (capacity : ℕ) : BoundedDedup :=
  ⟨capacity, [], []⟩

/-- Append on `deque(maxlen=cap)`: when the deque is full the leftmost
(oldest) entries are dropped so that the length stays at `cap`; with
`cap = 0` the deque stays empty. -/
def dequeAppend (cap : ℕ) (q : List String) (k : String) : List String :=
  if q.length < cap then q ++ [k]
  else (q ++ [k]).drop (q.length + 1 - cap)

/-- Python `set.add`: no-op on a member, else record the new element. -/
def setAdd (s : List String) (k : String) : List String :=
  if k ∈ s then s else s ++ [k]

/-- One run of the corrective loop body of `BoundedDedup.seen`
(`while len(self.set) > len(self.queue): ...`), with fuel: each
iteration removes the first set member that is not in the queue, or
stops when none exists. `sset.length` fuel always suffices because each
iteration removes one element. -/
def dedupFixAux : ℕ → List String → List String → List String
  | 0, _, sset => sset
  | fuel + 1, queue, sset =>
    if queue.length < sset.length then
      match sset.find? (fun s => decide (s ∉ queue)) with
      | some s => dedupFixAux fuel queue (sset.erase s)
      | none => sset
    else sset

/-- The corrective loop of `BoundedDedup.seen`. -/
def dedupFix (queue sset : List String) : List String :=
  dedupFixAux sset.length queue sset

/-- Source `BoundedDedup.seen`: strip the key; report `true` when
already in the set, else append to the deque (evicting the oldest when
full), add to the set, run the corrective loop, and report `false`. -/
def BoundedDedup.seen (d : BoundedDedup) (key : String) : BoundedDedup × Bool :=
  let k := pyStrip key
  if k ∈ d.sset then (d, true)
  else
    let q := dequeAppend d.capacity d.queue k
    let s := dedupFix q (setAdd d.sset k)
    (⟨d.capacity, q, s⟩, false)

/-- Fold a sequence of `seen` calls from a fresh deduplicator of the
given capacity, keeping only the final state. -/
def runSeen (capacity : ℕ) (keys : List String) : BoundedDedup :=
  keys.foldl (fun d key => (d.seen key).1) (initDedup capacity)

/-- Fold a sequence of `seen` calls from a fresh deduplicator of the
given capacity, collecting the returned booleans in call order. -/
def seenResults (capacity : ℕ) (keys : List String) : List Bool :=
  (keys.foldl (fun (p : BoundedDedup × List Bool) key =>
    let r := p.1.seen key
    (r.1, p.2 ++ [r.2])) (initDedup capacity, [])).2

/-- Invariant of the deduplicator: both bookkeeping structures are
duplicate-free, hold exactly the same keys, and the queue respects the
capacity bound. -/
def DedupInv (d : BoundedDedup) : Prop :=
  d.queue.Nodup ∧ d.sset.Nodup ∧ (∀ k, k ∈ d.sset ↔ k ∈ d.queue) ∧
    d.queue.length ≤ d.capacity

/-! ## Remote classification client (`hf_classify`) -/

/-- Environment-derived configuration read by the classifier and the
cycle loop (`HF_ENABLE`, `HF_API_KEY`, `HF_SCORE_THRESHOLD`,
`HF_MAX_PER_CYCLE`, `USER_CITY`). -/
structure Config where
  userCity : String
  hfEnable : Bool
  hfApiKey : String
  hfScoreThreshold : ℚ
  hfMaxPerCycle : ℕ
  deriving Repr, DecidableEq

/-- Parsed JSON body of a HuggingFace response, as far as `hf_classify`
inspects it: the optional `labels` and `scores` entries. -/
structure HFData where
  labels : Option (List String)
  scores : Option (List ℚ)
  deriving Repr, DecidableEq

/-- Outcome of the network round-trip inside `hf_classify`'s `try`
block: the request/JSON-decoding raised, or produced a body. -/
inductive HFNet where
  | fail : HFNet
  | ok : HFData → HFNet
  deriving Repr, DecidableEq

/-- Result of a Python expression that may raise. -/
inductive PyResult (α : Type) where
  | ok : α → PyResult α
  | exn : PyResult α
  deriving Repr, DecidableEq

/-- Body of `hf_classify`'s `try` block: raise on network failure;
when both `labels` and `scores` are present, index their heads (an
empty list raises `IndexError`); otherwise answer `(None, 0.0)`. -/
def hf_classify_body (net : HFNet) : PyResult (Option String × ℚ) :=
  match net with
  | .fail => .exn
  | .ok d =>
    if d.labels.isSome && d.scores.isSome then
      match d.labels, d.scores with
      | some (l :: _), some (s :: _) => .ok (some l, s)
      | _, _ => .exn
    else .ok (none, 0)

/-- Source `hf_classify`: `(None, 0.0)` when disabled or without an API
key; otherwise run the `try` block, and the bare `except` maps every
exception to `(None, 0.0)`. -/
def hf_classify (cfg : Config) (net : HFNet) : Option String × ℚ :=
  if !cfg.hfEnable || cfg.hfApiKey == "" then (none, 0)
  else
    match hf_classify_body net with
    | .ok r => r
    | .exn => (none, 0)

/-! ## One item of the `update_news` cycle -/

/-- Raw feed entry produced by `fetch_rss`. -/
structure NewsItem where
  title : String
  link : String
  deriving Repr, DecidableEq

/-- One entry of `cycle_news` / `cycle_important`, as built in
`update_news` (`time` carries the `now_str()` string). -/
structure ClassifiedItem where
  title : String
  link : String
  category : String
  score : ℚ
  time : String
  is_important : Bool
  deriving Repr, DecidableEq

/-- Python `label or "general"`: `None` and the empty string are falsy. -/
def pyOr (label : Option String) (dflt : String) : String :=
  match label with
  | some s => if s = "" then dflt else s
  | none => dflt

/-- Per-cycle mutable state of the `for news in items` loop in
`update_news`: the deduplicator, the remaining `hf_budget`, and the
`cycle_news` / `cycle_important` accumulators. -/
structure CycleState where
  dedup : BoundedDedup
  hfBudget : ℕ
  cycleNews : List ClassifiedItem
  cycleImportant : List ClassifiedItem
  deriving Repr, DecidableEq

/-- Body of the `for news in items` loop in `update_news` for a single
item. `oracle` gives the network outcome a `hf_classify` call on that
title would see; `now` is the cycle's `now_str()` value. Skips empty
titles and already-seen titles; otherwise applies the city rule, the
keyword rule, then the budget-limited remote call, builds the
`news_item` dict, and appends it to `cycle_news` (and to
`cycle_important` when important — the sound/console side effects are
I/O edges outside the model). -/
def update_news_item (cfg : Config) (oracle : String → HFNet) (now : String)
    (st : CycleState) (news : NewsItem) : CycleState :=
  if news.title = "" then st
  else
    let r := st.dedup.seen news.title
    if r.2 then { st with dedup := r.1 }
    else
      let is_city := title_matches_city news.title cfg.userCity
      let is_keyword := keyword_prefilter news.title IMPORTANT_KEYWORDS
      let lsb : Option String × ℚ × ℕ :=
        if is_city then (some "city-priority", 1, st.hfBudget)
        else if is_keyword then (some "keyword", 3/4, st.hfBudget)
        else if cfg.hfEnable = true ∧ cfg.hfApiKey ≠ "" ∧ 0 < st.hfBudget then
          let c := hf_classify cfg (oracle news.title)
          (c.1, c.2, st.hfBudget - 1)
        else (none, 0, st.hfBudget)
      let label := lsb.1
      let score := lsb.2.1
      let item : ClassifiedItem :=
        { title := news.title
          link := news.link
          category := pyOr label "general"
          score := score
          time := now
          is_important := decide (label = some "city-priority")
            || decide (cfg.hfScoreThreshold ≤ score)
            || (is_keyword && decide ((0 : ℚ) ≤ score)) }
      { dedup := r.1
        hfBudget := lsb.2.2
        cycleNews := st.cycleNews ++ [item]
        cycleImportant :=
          if item.is_important then st.cycleImportant ++ [item]
          else st.cycleImportant }

/-! ## One cycle of `update_news` and the global result store -/

/-- The process-wide result store: globals `latest_news` and
`important_news` read by the `/news` and `/important` endpoints. -/
structure Globals where
  latest_news : List ClassifiedItem
  important_news : List ClassifiedItem
  deriving Repr, DecidableEq

/-- Source `fetch_rss`: the parsed entries on success, `[]` when the
fetch/parse raised (the error is logged and swallowed). -/
def fetch_rss (result : Except String (List NewsItem)) : List NewsItem :=
  match result with
  | .ok items => items
  | .error _ => []

/-- One iteration of the `while running` loop of `update_news` (minus
the sleep): when the fetch produced no items the globals and the
deduplicator are left untouched (`continue`); otherwise the loop runs
every item through `update_news_item` starting from a fresh budget of
`HF_MAX_PER_CYCLE` and empty accumulators, then replaces `latest_news`
and `important_news` with the cycle's lists. -/
def update_news_cycle (cfg : Config) (oracle : String → HFNet) (now : String)
    (g : Globals) (dedup : BoundedDedup) (items : List NewsItem) :
    Globals × BoundedDedup :=
  if items.isEmpty then (g, dedup)
  else
    let st := items.foldl (update_news_item cfg oracle now)
      ⟨dedup, cfg.hfMaxPerCycle, [], []⟩
    (⟨st.cycleNews, st.cycleImportant⟩, st.dedup)

/-! ## Theorems -/

/-- A `seen` call on an already-recorded key reports `true` and leaves
the state untouched. -/
theorem seen_mem {d : BoundedDedup} {key : String} (h : pyStrip key ∈ d.sset) :
    d.seen key = (d, true) := by
  simp [BoundedDedup.seen, h]

/-- A `seen` call on a fresh key appends to the queue, adds to the set,
runs the corrective loop, and reports `false`. -/
theorem seen_not_mem {d : BoundedDedup} {key : String} (h : pyStrip key ∉ d.sset) :
    d.seen key =
      (⟨d.capacity, dequeAppend d.capacity d.queue (pyStrip key),
        dedupFix (dequeAppend d.capacity d.queue (pyStrip key))
          (d.sset ++ [pyStrip key])⟩, false) := by
  simp [BoundedDedup.seen, h, setAdd]

/-- The corrective loop does nothing when the set is no longer than the
queue. -/
theorem dedupFixAux_le (fuel : ℕ) (queue sset : List String)
    (h : sset.length ≤ queue.length) : dedupFixAux fuel queue sset = sset := by
  cases fuel with
  | zero => rfl
  | succ n => simp [dedupFixAux, Nat.not_lt.mpr h]

/-- The corrective loop does nothing when the set is no longer than the
queue. -/
theorem dedupFix_le {queue sset : List String} (h : sset.length ≤ queue.length) :
    dedupFix queue sset = sset :=
  dedupFixAux_le _ _ _ h

/-- After a full deque evicted its oldest entry `hd`, the corrective
loop removes exactly `hd` from the membership set and stops. -/
theorem dedupFix_evict {hd k : String} {t sset : List String}
    (hsN : sset.Nodup) (hqN : (hd :: t).Nodup)
    (hmem : ∀ x, x ∈ sset ↔ x ∈ hd :: t)
    (hk : k ∉ hd :: t) :
    dedupFix (t ++ [k]) (sset ++ [k]) = sset.erase hd ++ [k] := by
  have hlen : sset.length = t.length + 1 :=
    ((List.perm_ext_iff_of_nodup hsN hqN).mpr hmem).length_eq.trans (by simp)
  have hhd_mem : hd ∈ sset := (hmem hd).mpr (List.mem_cons_self hd t)
  have hhd_not : hd ∉ t ++ [k] := by
    have h1 : hd ∉ t := (List.nodup_cons.mp hqN).1
    have h2 : hd ≠ k := fun he => hk (he ▸ List.mem_cons_self hd t)
    simp [h1, h2]
  have hfind : (sset ++ [k]).find? (fun s => decide (s ∉ t ++ [k])) = some hd := by
    rcases hfound : (sset ++ [k]).find? (fun s => decide (s ∉ t ++ [k])) with _ | s
    · exfalso
      have := List.find?_eq_none.mp hfound hd (by simp [hhd_mem])
      simp [hhd_not] at this
    · have hps : s ∉ t ++ [k] := by simpa using List.find?_some hfound
      have hmem_s : s ∈ sset ++ [k] := List.mem_of_find?_eq_some hfound
      have hs_ne_k : s ≠ k := fun he => hps (by simp [he])
      have hs_sset : s ∈ sset := by
        rcases List.mem_append.mp hmem_s with h | h
        · exact h
        · exact absurd (by simpa using h) hs_ne_k
      rcases List.mem_cons.mp ((hmem s).mp hs_sset) with h | h
      · rw [h]
      · exact absurd (by simp [h]) hps
  have herase : (sset ++ [k]).erase hd = sset.erase hd ++ [k] :=
    List.erase_append_left [k] hhd_mem
  have hstop : (sset.erase hd ++ [k]).length ≤ (t ++ [k]).length := by
    simp [List.length_erase_of_mem hhd_mem, hlen]
  show dedupFixAux (sset ++ [k]).length (t ++ [k]) (sset ++ [k])
      = sset.erase hd ++ [k]
  have hlens : (sset ++ [k]).length = sset.length + 1 := by simp
  rw [hlens]
  have hcond : (t ++ [k]).length < (sset ++ [k]).length := by simp [hlen]
  rw [dedupFixAux]
  rw [if_pos (by simpa using hcond), hfind]
  show dedupFixAux sset.length (t ++ [k]) ((sset ++ [k]).erase hd)
      = sset.erase hd ++ [k]
  rw [herase]
  exact dedupFixAux_le _ _ _ hstop

/-- One `seen` call preserves the deduplicator invariant and the
capacity. -/
theorem seen_preserves {d : BoundedDedup} (key : String) (h : DedupInv d) :
    DedupInv (d.seen key).1 ∧ (d.seen key).1.capacity = d.capacity := by
  obtain ⟨hqN, hsN, hmem, hlen⟩ := h
  by_cases hks : pyStrip key ∈ d.sset
  · rw [seen_mem hks]
    exact ⟨⟨hqN, hsN, hmem, hlen⟩, rfl⟩
  · rw [seen_not_mem hks]
    have hkq : pyStrip key ∉ d.queue := fun hq => hks ((hmem _).mpr hq)
    have hleneq : d.sset.length = d.queue.length :=
      ((List.perm_ext_iff_of_nodup hsN hqN).mpr hmem).length_eq
    by_cases hlt : d.queue.length < d.capacity
    · have hq' : dequeAppend d.capacity d.queue (pyStrip key)
          = d.queue ++ [pyStrip key] := if_pos hlt
      have hfix : dedupFix (d.queue ++ [pyStrip key]) (d.sset ++ [pyStrip key])
          = d.sset ++ [pyStrip key] := dedupFix_le (by simp [hleneq])
      rw [hq', hfix]
      refine ⟨⟨?_, ?_, ?_, ?_⟩, rfl⟩
      · simp [List.nodup_append, hqN, hkq]
      · simp [List.nodup_append, hsN, hks]
      · intro x
        simp only [List.mem_append, List.mem_singleton, hmem x]
      · simpa using Nat.succ_le_of_lt hlt
    · have hfull : d.queue.length = d.capacity :=
        le_antisymm hlen (Nat.not_lt.mp hlt)
      rcases hq : d.queue with _ | ⟨hd, t⟩
      · have hcap0 : d.capacity = 0 := by rw [← hfull, hq]; rfl
        have hsnil : d.sset = [] :=
          List.eq_nil_of_length_eq_zero (by rw [hleneq, hq]; rfl)
        have hq' : dequeAppend d.capacity [] (pyStrip key) = [] := by
          rw [hcap0]
          simp [dequeAppend]
        have hfix : dedupFix [] (d.sset ++ [pyStrip key]) = [] := by
          rw [hsnil]
          have h1 : ([pyStrip key] : List String).find?
              (fun s => decide (s ∉ ([] : List String))) = some (pyStrip key) :=
            List.find?_cons_of_pos _ (by simp)
          simp [dedupFix, dedupFixAux, h1]
        rw [hq', hfix]
        exact ⟨⟨List.nodup_nil, List.nodup_nil, by simp, by simp⟩, rfl⟩
      · have hcap : d.capacity = t.length + 1 := by
          rw [← hfull, hq]; rfl
        have hq' : dequeAppend d.capacity (hd :: t) (pyStrip key)
            = t ++ [pyStrip key] := by
          rw [dequeAppend, hcap]
          rw [if_neg (by simp)]
          simp
        have hqN' : (hd :: t).Nodup := hq ▸ hqN
        have hmem' : ∀ x, x ∈ d.sset ↔ x ∈ hd :: t := fun x => hq ▸ hmem x
        have hk' : pyStrip key ∉ hd :: t := hq ▸ hkq
        have hfix : dedupFix (t ++ [pyStrip key]) (d.sset ++ [pyStrip key])
            = d.sset.erase hd ++ [pyStrip key] :=
          dedupFix_evict hsN hqN' hmem' hk'
        rw [hq', hfix]
        have hhdt : hd ∉ t := (List.nodup_cons.mp hqN').1
        have htN : t.Nodup := (List.nodup_cons.mp hqN').2
        have hkt : pyStrip key ∉ t := fun hmt => hk' (List.mem_cons_of_mem hd hmt)
        refine ⟨⟨?_, ?_, ?_, ?_⟩, rfl⟩
        · simp [List.nodup_append, htN, hkt]
        · have hkE : pyStrip key ∉ d.sset.erase hd :=
            fun hmE => hks (List.mem_of_mem_erase hmE)
          simp [List.nodup_append, hsN.erase hd, hkE]
        · intro x
          simp only [List.mem_append, List.mem_singleton, hsN.mem_erase_iff]
          constructor
          · rintro (⟨hne, hx⟩ | hx)
            · rcases List.mem_cons.mp ((hmem' x).mp hx) with h | h
              · exact absurd h hne
              · exact Or.inl h
            · exact Or.inr hx
          · rintro (hx | hx)
            · exact Or.inl ⟨fun he => hhdt (he ▸ hx), (hmem' x).mpr
                (List.mem_cons_of_mem hd hx)⟩
            · exact Or.inr hx
        · simp [hcap]

/-- A fresh deduplicator satisfies the invariant. -/
theorem initDedup_inv (c : ℕ) : DedupInv (initDedup c) := by
  refine ⟨List.nodup_nil, List.nodup_nil, by simp [initDedup], ?_⟩
  simp [initDedup]

/-- Folding `seen` calls preserves the invariant and the capacity. -/
theorem foldl_seen_inv (keys : List String) :
    ∀ d : BoundedDedup, DedupInv d →
      DedupInv (keys.foldl (fun d key => (d.seen key).1) d) ∧
        (keys.foldl (fun d key => (d.seen key).1) d).capacity = d.capacity := by
  induction keys with
  | nil => exact fun d h => ⟨h, rfl⟩
  | cons k ks ih =>
    intro d h
    have hp := seen_preserves k h
    obtain ⟨h1, h2⟩ := ih _ hp.1
    exact ⟨h1, h2.trans hp.2⟩

/-- Every state reachable by `seen` calls from a fresh deduplicator
satisfies the invariant, with its original capacity. -/
theorem runSeen_inv (c : ℕ) (keys : List String) :
    DedupInv (runSeen c keys) ∧ (runSeen c keys).capacity = c :=
  foldl_seen_inv keys (initDedup c) (initDedup_inv c)

/-- The boolean reported by `seen` says whether the stripped key was
already recorded (membership in the queue, equivalently the set). -/
theorem seen_flag_iff {d : BoundedDedup} (h : DedupInv d) (key : String) :
    (d.seen key).2 = true ↔ pyStrip key ∈ d.queue := by
  by_cases hks : pyStrip key ∈ d.sset
  · rw [seen_mem hks]
    simpa using (h.2.2.1 _).mp hks
  · rw [seen_not_mem hks]
    simpa using fun hq => hks ((h.2.2.1 _).mpr hq)

/-- When a fresh key is recorded into a full queue, the front (oldest)
entry is the one dropped; the new key goes to the back. -/
theorem seen_evicts_oldest {d : BoundedDedup} {key : String}
    (hfalse : (d.seen key).2 = false) (hfull : d.queue.length = d.capacity)
    (hpos : 0 < d.capacity) :
    (d.seen key).1.queue = d.queue.tail ++ [pyStrip key] := by
  by_cases hks : pyStrip key ∈ d.sset
  · rw [seen_mem hks] at hfalse
    simp at hfalse
  · rw [seen_not_mem hks]
    rcases hq : d.queue with _ | ⟨hd, t⟩
    · rw [hq] at hfull
      rw [← hfull] at hpos
      simp at hpos
    · have hcap : d.capacity = t.length + 1 := by rw [← hfull, hq]; rfl
      have hq' : dequeAppend d.capacity (hd :: t) (pyStrip key)
          = t ++ [pyStrip key] := by
        rw [dequeAppend, hcap]
        rw [if_neg (by simp)]
        simp
      simpa using hq'

/-- A list of length at most one that has a member is that singleton. -/
theorem eq_singleton_of_len_le_one {α : Type} {l : List α} {x : α}
    (hlen : l.length ≤ 1) (hx : x ∈ l) : l = [x] := by
  cases l with
  | nil => simp at hx
  | cons a t =>
    cases t with
    | nil =>
      simp only [List.mem_singleton] at hx
      rw [hx]
    | cons b u => simp at hlen

/-- With capacity 1, a `seen` call always leaves exactly the stripped
key it was given as the sole remembered key. -/
theorem seen_cap_one {d : BoundedDedup} (h : DedupInv d) (hc : d.capacity = 1)
    (key : String) :
    (d.seen key).1.queue = [pyStrip key] ∧ (d.seen key).1.sset = [pyStrip key] := by
  obtain ⟨hqN, hsN, hmem, hlen⟩ := h
  rw [hc] at hlen
  have hleneq : d.sset.length = d.queue.length :=
    ((List.perm_ext_iff_of_nodup hsN hqN).mpr hmem).length_eq
  by_cases hks : pyStrip key ∈ d.sset
  · rw [seen_mem hks]
    constructor
    · exact eq_singleton_of_len_le_one hlen ((hmem _).mp hks)
    · exact eq_singleton_of_len_le_one (hleneq ▸ hlen) hks
  · rw [seen_not_mem hks]
    rcases hq : d.queue with _ | ⟨hd, t⟩
    · have hsnil : d.sset = [] :=
        List.eq_nil_of_length_eq_zero (by rw [hleneq, hq]; rfl)
      have hq' : dequeAppend d.capacity [] (pyStrip key) = [pyStrip key] := by
        rw [hc]
        simp [dequeAppend]
      rw [hq', hsnil]
      have hfix : dedupFix [pyStrip key] ([] ++ [pyStrip key]) = [pyStrip key] := by
        exact dedupFix_le (by simp)
      rw [hfix]
      exact ⟨rfl, rfl⟩
    · have ht : t = [] := by
        rw [hq] at hlen
        cases t with
        | nil => rfl
        | cons b u => simp at hlen
      subst ht
      have hq' : dequeAppend d.capacity [hd] (pyStrip key) = [pyStrip key] := by
        rw [dequeAppend, hc]
        rw [if_neg (by simp)]
        simp
      have hsone : d.sset = [hd] := by
        refine eq_singleton_of_len_le_one (hleneq ▸ hlen) ?_
        exact (hmem hd).mpr (hq ▸ List.mem_cons_self hd [])
      have hk' : pyStrip key ∉ [hd] := fun hmm => hks (hsone ▸ hmm)
      have hfix : dedupFix ([] ++ [pyStrip key]) (d.sset ++ [pyStrip key])
          = d.sset.erase hd ++ [pyStrip key] := by
        refine dedupFix_evict hsN ?_ ?_ ?_
        · simp
        · intro x
          rw [hsone]
        · exact hk'
      rw [hq']
      constructor
      · rfl
      · show dedupFix [pyStrip key] (d.sset ++ [pyStrip key]) = [pyStrip key]
        rw [show dedupFix [pyStrip key] (d.sset ++ [pyStrip key])
            = d.sset.erase hd ++ [pyStrip key] from hfix, hsone]
        simp

/-- With capacity 0 the deduplicator never records anything: a `seen`
call on the empty state answers `false` and leaves the state empty. -/
theorem seen_cap_zero (key : String) :
    (initDedup 0).seen key = (initDedup 0, false) := by
  have hks : pyStrip key ∉ ([] : List String) := by simp
  show (⟨0, [], []⟩ : BoundedDedup).seen key = (⟨0, [], []⟩, false)
  rw [seen_not_mem hks]
  have hq' : dequeAppend 0 [] (pyStrip key) = [] := by
    simp [dequeAppend]
  rw [hq']
  have hfix : dedupFix [] (([] : List String) ++ [pyStrip key]) = [] := by
    have h1 : ([pyStrip key] : List String).find?
        (fun s => decide (s ∉ ([] : List String))) = some (pyStrip key) :=
      List.find?_cons_of_pos _ (by simp)
    simp [dedupFix, dedupFixAux, h1]
  rw [hfix]

/-- A capacity-0 deduplicator stays in its initial (empty) state under
any call sequence. -/
theorem runSeen_zero (keys : List String) : runSeen 0 keys = initDedup 0 := by
  show keys.foldl (fun d key => (d.seen key).1) (initDedup 0) = initDedup 0
  induction keys with
  | nil => rfl
  | cons k ks ih =>
    rw [List.foldl_cons, show ((initDedup 0).seen k).1 = initDedup 0 by
      rw [seen_cap_zero]]
    exact ih

/-! ## Claim theorems -/

/-- C1: after every sequence of `seen` calls on a deduplicator of
capacity `c`, the membership set and the ordered queue contain exactly
the same keys and at most `c` of them; and whenever a further call
records a fresh key while the queue already holds `c > 0` keys, the
oldest (front) key is the one evicted, the new key joining at the back. -/
theorem dedup_invariant_bounded_fifo (c : ℕ) (keys : List String) (key : String) :
    (∀ k, k ∈ (runSeen c keys).sset ↔ k ∈ (runSeen c keys).queue)
    ∧ (runSeen c keys).sset.length ≤ c
    ∧ (runSeen c keys).queue.length ≤ c
    ∧ (((runSeen c keys).seen key).2 = false →
        (runSeen c keys).queue.length = c → 0 < c →
        ((runSeen c keys).seen key).1.queue
          = (runSeen c keys).queue.tail ++ [pyStrip key]) := by
  obtain ⟨⟨hqN, hsN, hmem, hlen⟩, hcap⟩ := runSeen_inv c keys
  refine ⟨hmem, ?_, ?_, ?_⟩
  · rw [((List.perm_ext_iff_of_nodup hsN hqN).mpr hmem).length_eq]
    exact hlen.trans (le_of_eq hcap)
  · exact hlen.trans (le_of_eq hcap)
  · intro hfalse hfull hpos
    exact seen_evicts_oldest hfalse (hfull.trans hcap.symm) (by rw [hcap]; exact hpos)

/-- Witness for C1 at capacity 1 after recording "a": a fresh call with
"b" evicts the oldest key "a". -/
theorem dedup_invariant_bounded_fifo_witness :
    ((runSeen 1 ["a"]).seen "b").1.queue
      = (runSeen 1 ["a"]).queue.tail ++ [pyStrip "b"] :=
  (dedup_invariant_bounded_fifo 1 ["a"] "b").2.2.2 (by decide) (by decide) (by decide)

/-- C2: on a fresh deduplicator of capacity 2 the call sequence
seen "a", seen "b", seen "c", seen "a" answers false, false, false,
false (the first "a" was evicted before the recheck), while with
capacity 3 it answers false, false, false, true. -/
theorem dedup_capacity_2_and_3_sequences :
    seenResults 2 ["a", "b", "c", "a"] = [false, false, false, false]
    ∧ seenResults 3 ["a", "b", "c", "a"] = [false, false, false, true] := by
  decide

/-- C8: degenerate capacities never raise (all operations are total in
the model) and behave as specified: with capacity 0 every call answers
`false` (the state never remembers a key), and with capacity 1 the sole
remembered key is always the stripped form of the most recently
recorded one, so a call answers `true` exactly on that key. -/
theorem dedup_degenerate_capacities (keys : List String) (key : String) :
    ((runSeen 0 keys).seen key).2 = false
    ∧ (runSeen 1 (keys ++ [key])).queue = [pyStrip key]
    ∧ (runSeen 1 (keys ++ [key])).sset = [pyStrip key]
    ∧ (((runSeen 1 keys).seen key).2 = true ↔
        pyStrip key ∈ (runSeen 1 keys).queue) := by
  have happ : runSeen 1 (keys ++ [key]) = ((runSeen 1 keys).seen key).1 := by
    simp [runSeen, List.foldl_append]
  have h1 := runSeen_inv 1 keys
  refine ⟨?_, ?_, ?_, ?_⟩
  · rw [runSeen_zero, seen_cap_zero]
  · rw [happ]
    exact (seen_cap_one h1.1 h1.2 key).1
  · rw [happ]
    exact (seen_cap_one h1.1 h1.2 key).2
  · exact seen_flag_iff h1.1 key

/-- C3: a title matching a city alias is categorised "city-priority"
with score 1 and marked important, and the keyword rule never fires for
it — in particular also when an alarm keyword occurs in the title as
well — nor is the remote budget touched. -/
theorem city_rule_precedence (cfg : Config) (oracle : String → HFNet)
    (now : String) (st : CycleState) (title link : String)
    (htitle : title ≠ "") (hseen : (st.dedup.seen title).2 = false)
    (hcity : title_matches_city title cfg.userCity = true)
    (_hkw : keyword_prefilter title IMPORTANT_KEYWORDS = true) :
    (update_news_item cfg oracle now st ⟨title, link⟩).cycleNews
      = st.cycleNews ++ [⟨title, link, "city-priority", 1, now, true⟩]
    ∧ (update_news_item cfg oracle now st ⟨title, link⟩).hfBudget
      = st.hfBudget := by
  constructor <;>
    simp [update_news_item, htitle, hseen, hcity, pyOr,
      show ("city-priority" : String) ≠ "" by decide]

/-- Witness for C3: a title naming both Delhi and an alarm keyword is
classified "city-priority", never "keyword". -/
theorem city_rule_precedence_witness :
    (update_news_item ⟨"Delhi", false, "", 1/2, 20⟩ (fun _ => HFNet.fail) "now"
      ⟨initDedup 5, 20, [], []⟩ ⟨"Delhi earthquake today", "x"⟩).cycleNews
      = ([] : List ClassifiedItem)
        ++ [⟨"Delhi earthquake today", "x", "city-priority", 1, "now", true⟩]
    ∧ (update_news_item ⟨"Delhi", false, "", 1/2, 20⟩ (fun _ => HFNet.fail) "now"
      ⟨initDedup 5, 20, [], []⟩ ⟨"Delhi earthquake today", "x"⟩).hfBudget = 20 :=
  city_rule_precedence _ _ _ _ _ _ (by decide) (by decide) (by decide) (by decide)

/-- C4: with no city-alias match but a keyword match, the item gets
category "keyword", score 3/4, and is_important = true for every
configured importance threshold — the keyword conjunct of the
importance disjunction fires regardless of the threshold comparison. -/
theorem keyword_rule_forces_importance (cfg : Config) (oracle : String → HFNet)
    (now : String) (st : CycleState) (title link : String)
    (htitle : title ≠ "") (hseen : (st.dedup.seen title).2 = false)
    (hcity : title_matches_city title cfg.userCity = false)
    (hkw : keyword_prefilter title IMPORTANT_KEYWORDS = true) :
    (update_news_item cfg oracle now st ⟨title, link⟩).cycleNews
      = st.cycleNews ++ [⟨title, link, "keyword", 3/4, now, true⟩] := by
  simp [update_news_item, htitle, hseen, hcity, hkw, pyOr,
    show ("keyword" : String) ≠ "" by decide]
  exact Or.inr (by norm_num)

/-- Witness for C4 with an importance threshold of 9/10, strictly above
the fixed keyword score 3/4: the item is still important. -/
theorem keyword_rule_forces_importance_witness :
    (update_news_item ⟨"Delhi", false, "", 9/10, 20⟩ (fun _ => HFNet.fail) "now"
      ⟨initDedup 5, 20, [], []⟩ ⟨"major flood warning", "x"⟩).cycleNews
      = ([] : List ClassifiedItem)
        ++ [⟨"major flood warning", "x", "keyword", 3/4, "now", true⟩] :=
  keyword_rule_forces_importance _ _ _ _ _ _ (by decide) (by decide) (by decide)
    (by decide)

/-- C5: when neither rule matched a fresh title, a remote call — taken
only while HF is enabled with a key and budget remains — consumes
exactly one budget unit whatever the network outcome; and with the
budget at zero the remote client is never consulted (the whole step is
oracle-independent) and the item falls through to category "general"
with score 0. -/
theorem hf_budget_decrement_and_exhaustion (cfg : Config)
    (oracle oracle' : String → HFNet) (now : String) (st : CycleState)
    (title link : String)
    (htitle : title ≠ "") (hseen : (st.dedup.seen title).2 = false)
    (hcity : title_matches_city title cfg.userCity = false)
    (hkw : keyword_prefilter title IMPORTANT_KEYWORDS = false) :
    ((cfg.hfEnable = true ∧ cfg.hfApiKey ≠ "" ∧ 0 < st.hfBudget) →
      (update_news_item cfg oracle now st ⟨title, link⟩).hfBudget
        = st.hfBudget - 1)
    ∧ (st.hfBudget = 0 →
        update_news_item cfg oracle now st ⟨title, link⟩
          = update_news_item cfg oracle' now st ⟨title, link⟩
        ∧ (update_news_item cfg oracle now st ⟨title, link⟩).cycleNews
            = st.cycleNews ++ [⟨title, link, "general", 0, now,
                decide (cfg.hfScoreThreshold ≤ 0)⟩]) := by
  constructor
  · intro hcond
    simp [update_news_item, htitle, hseen, hcity, hkw, hcond]
  · intro h0
    have hnc : ¬(cfg.hfEnable = true ∧ cfg.hfApiKey ≠ "" ∧ 0 < st.hfBudget) := by
      rintro ⟨-, -, hb⟩
      rw [h0] at hb
      exact absurd hb (lt_irrefl 0)
    constructor
    · simp [update_news_item, htitle, hseen, hcity, hkw, hnc]
    · simp [update_news_item, htitle, hseen, hcity, hkw, hnc, pyOr]

/-- Witness for C5: with budget 3 a failing remote call still costs one
unit (3 becomes 2). -/
theorem hf_budget_decrement_and_exhaustion_witness :
    (update_news_item ⟨"Delhi", true, "key", 1/2, 20⟩ (fun _ => HFNet.fail) "now"
      ⟨initDedup 5, 3, [], []⟩ ⟨"quiet evening melody", "x"⟩).hfBudget = 3 - 1 :=
  (hf_budget_decrement_and_exhaustion _ _ (fun _ => HFNet.fail) _ _ _ _
    (by decide) (by decide) (by decide) (by decide)).1 ⟨rfl, by decide, by decide⟩

/-- C7 (amended): when neither rule matches a fresh title and the
remote step yields no label — disabled, missing key, exhausted budget,
or a call that answered `(none, 0)` — the item gets category "general"
and score 0, and, provided the configured importance threshold is
strictly positive, is_important = false. -/
theorem general_fallback_not_important (cfg : Config) (oracle : String → HFNet)
    (now : String) (st : CycleState) (title link : String)
    (htitle : title ≠ "") (hseen : (st.dedup.seen title).2 = false)
    (hcity : title_matches_city title cfg.userCity = false)
    (hkw : keyword_prefilter title IMPORTANT_KEYWORDS = false)
    (hnone : cfg.hfEnable = false ∨ cfg.hfApiKey = "" ∨ st.hfBudget = 0
      ∨ hf_classify cfg (oracle title) = (none, 0))
    (hth : 0 < cfg.hfScoreThreshold) :
    (update_news_item cfg oracle now st ⟨title, link⟩).cycleNews
      = st.cycleNews ++ [⟨title, link, "general", 0, now, false⟩] := by
  have himp : decide (cfg.hfScoreThreshold ≤ (0 : ℚ)) = false :=
    decide_eq_false (not_le.mpr hth)
  by_cases hcond : cfg.hfEnable = true ∧ cfg.hfApiKey ≠ "" ∧ 0 < st.hfBudget
  · have hcall : hf_classify cfg (oracle title) = (none, 0) := by
      rcases hnone with h | h | h | h
      · rw [h] at hcond
        exact absurd hcond.1 (by simp)
      · exact absurd h hcond.2.1
      · rw [h] at hcond
        exact absurd hcond.2.2 (lt_irrefl 0)
      · exact h
    simp [update_news_item, htitle, hseen, hcity, hkw, hcond, hcall, pyOr, himp]
  · simp [update_news_item, htitle, hseen, hcity, hkw, hcond, pyOr, himp]

/-- Witness for C7's amended statement: remote classification disabled,
threshold 1/2 > 0, a neutral title: "general", score 0, not important. -/
theorem general_fallback_not_important_witness :
    (update_news_item ⟨"Delhi", false, "", 1/2, 20⟩ (fun _ => HFNet.fail) "now"
      ⟨initDedup 5, 20, [], []⟩ ⟨"quiet evening melody", "x"⟩).cycleNews
      = ([] : List ClassifiedItem)
        ++ [⟨"quiet evening melody", "x", "general", 0, "now", false⟩] :=
  general_fallback_not_important _ _ _ _ _ _ (by decide) (by decide) (by decide)
    (by decide) (Or.inl rfl) (by norm_num)

/-- C7 counterexample: with importance threshold 0 — a legal
configuration value — and remote classification disabled, a title that
matches neither rule yields category "general" and score 0 but
is_important = true (since 0 ≥ threshold), contradicting the claimed
"is_important = false". -/
theorem general_fallback_counterexample :
    (update_news_item ⟨"Delhi", false, "", 0, 20⟩ (fun _ => HFNet.fail) "now"
      ⟨initDedup 1000, 20, [], []⟩ ⟨"quiet evening melody", "x"⟩).cycleNews
      = [⟨"quiet evening melody", "x", "general", 0, "now", true⟩] := by
  decide

/-- C9: the remote classification wrapper answers `(none, 0)` — never
propagating an error — whenever classification is disabled, the API key
is missing, the network call raised, or the response body lacks
well-formed (present and non-empty) label and score lists; totality of
`hf_classify` over every `HFNet` outcome models "never raises to its
caller" (the bare `except` catches every `PyResult.exn`). -/
theorem hf_classify_fails_open (cfg : Config) (net : HFNet)
    (h : cfg.hfEnable = false ∨ cfg.hfApiKey = "" ∨ net = HFNet.fail
      ∨ ∃ d, net = HFNet.ok d ∧ (d.labels = none ∨ d.scores = none
          ∨ d.labels = some [] ∨ d.scores = some [])) :
    hf_classify cfg net = (none, 0) := by
  rcases h with h | h | h | ⟨d, hnet, hmal⟩
  · simp [hf_classify, h]
  · simp [hf_classify, h]
  · subst h
    simp [hf_classify, hf_classify_body]
  · subst hnet
    rcases hdl : d.labels with _ | ⟨_ | ⟨l, ls⟩⟩ <;>
      rcases hds : d.scores with _ | ⟨_ | ⟨s, ss⟩⟩ <;>
      simp_all [hf_classify, hf_classify_body]

/-- Witness for C9: a raised network call with classification enabled
and a key present still yields `(none, 0)`. -/
theorem hf_classify_fails_open_witness :
    hf_classify ⟨"Delhi", true, "key", 1/2, 20⟩ HFNet.fail = (none, 0) :=
  hf_classify_fails_open _ _ (Or.inr (Or.inr (Or.inl rfl)))

/-- C6: a failed fetch produces no items, and such a cycle leaves the
published snapshots (`latest_news`, `important_news`) and the
deduplicator exactly as the previous cycle left them, skipping straight
past the classification and publication steps. -/
theorem fetch_failure_keeps_snapshot (cfg : Config) (oracle : String → HFNet)
    (now msg : String) (g : Globals) (dedup : BoundedDedup) :
    update_news_cycle cfg oracle now g dedup (fetch_rss (Except.error msg))
      = (g, dedup) := rfl

/-- Appending an item to the all-items list and conditionally to the
important list keeps important = filter is_important. -/
theorem filter_snoc (l li : List ClassifiedItem) (x : ClassifiedItem) (b : Bool)
    (hb : b = x.is_important)
    (h : li = l.filter (fun i => i.is_important)) :
    (if b then li ++ [x] else li)
      = (l ++ [x]).filter (fun i => i.is_important) := by
  subst hb
  rw [List.filter_append, h]
  by_cases hx : x.is_important <;> simp [hx]

/-- One step of the item loop preserves important = filter is_important. -/
theorem update_news_item_filter (cfg : Config) (oracle : String → HFNet)
    (now : String) (st : CycleState) (news : NewsItem)
    (h : st.cycleImportant = st.cycleNews.filter (fun i => i.is_important)) :
    (update_news_item cfg oracle now st news).cycleImportant
      = (update_news_item cfg oracle now st news).cycleNews.filter
          (fun i => i.is_important) := by
  by_cases h1 : news.title = ""
  · simp [update_news_item, h1, h]
  · by_cases h2 : (st.dedup.seen news.title).2 = true
    · simp [update_news_item, h1, h2, h]
    · have h2' : (st.dedup.seen news.title).2 = false := by
        rwa [Bool.not_eq_true] at h2
      simp only [update_news_item, h1, h2', if_neg, ite_false,
        Bool.false_eq_true, if_false]
      exact filter_snoc st.cycleNews st.cycleImportant _ _ rfl h

/-- The whole item loop preserves important = filter is_important. -/
theorem foldl_update_filter (cfg : Config) (oracle : String → HFNet)
    (now : String) (items : List NewsItem) :
    ∀ st : CycleState,
      st.cycleImportant = st.cycleNews.filter (fun i => i.is_important) →
      (items.foldl (update_news_item cfg oracle now) st).cycleImportant
        = (items.foldl (update_news_item cfg oracle now) st).cycleNews.filter
            (fun i => i.is_important) := by
  induction items with
  | nil => exact fun st h => h
  | cons n ns ih =>
    exact fun st h => ih _ (update_news_item_filter cfg oracle now st n h)

/-- C10: after any cycle, the published important-items list is exactly
the is_important-filtered sublist of the published all-items list, in
the same order — every non-empty cycle establishes the property from
empty accumulators, and a skipped (empty-fetch) cycle preserves the
previous snapshot verbatim. -/
theorem important_is_filtered_snapshot (cfg : Config) (oracle : String → HFNet)
    (now : String) (g : Globals) (dedup : BoundedDedup) (items : List NewsItem)
    (h : g.important_news = g.latest_news.filter (fun i => i.is_important)) :
    (update_news_cycle cfg oracle now g dedup items).1.important_news
      = (update_news_cycle cfg oracle now g dedup items).1.latest_news.filter
          (fun i => i.is_important) := by
  by_cases hi : items.isEmpty = true
  · simp [update_news_cycle, hi, h]
  · simp only [update_news_cycle, hi, Bool.false_eq_true, if_false, ite_false]
    exact foldl_update_filter cfg oracle now items
      ⟨dedup, cfg.hfMaxPerCycle, [], []⟩ rfl

/-- Witness for C10 at a concrete one-item cycle starting from an empty
snapshot. -/
theorem important_is_filtered_snapshot_witness :
    (update_news_cycle ⟨"Delhi", false, "", 1/2, 20⟩ (fun _ => HFNet.fail) "now"
      ⟨[], []⟩ (initDedup 5) [⟨"Delhi earthquake today", "x"⟩]).1.important_news
      = (update_news_cycle ⟨"Delhi", false, "", 1/2, 20⟩ (fun _ => HFNet.fail)
          "now" ⟨[], []⟩ (initDedup 5)
          [⟨"Delhi earthquake today", "x"⟩]).1.latest_news.filter
          (fun i => i.is_important) :=
  important_is_filtered_snapshot _ _ _ _ _ _ rfl
